import Mathlib

/-!
Shallow embedding of `pgwrr/db.py` (DNS site lookup core): address
classification (`reserved`), geo-to-zone resolution (`zone`) and weighted
site selection (`site`), together with proofs of the specified properties.

Python dicts are modelled as association lists with unique keys (lookup
returns the first match), Python ints as `Nat`/`Int`, raised exceptions as
`Except` errors, and the external GeoIP collaborator and the random number
generator as explicit function parameters.
-/

namespace Pgwrr

/-- Python `d.get(key)` on a dict modelled as an association list:
the first entry with the given key, if any. -/
def dget {α : Type} : List (String × α) → String → Option α
  | [], _ => none
  | (k, v) :: l, key => if k = key then some v else dget l key

/-- Python `d.get(key)` where the key may be `None` (e.g. a missing
GeoIP iso code); `None` never equals a string key. -/
def olookup {α : Type} (l : List (String × α)) : Option String → Option α
  | none => none
  | some k => dget l k

/-! ## The `ipaddr` collaborator: textual IPv4/IPv6 parsing

Model of `ipaddr.IPAddress` / `IPv4Network` / `IPv6Network` as used by
`db.py` (the `ipaddress.py` backport the source's comment points to):
an address parses to its numeric value, or fails. -/

/-- Decimal value of a digit string (`int(s, 10)` on an all-digit string). -/
def decVal (cs : List Char) : Nat :=
  cs.foldl (fun a c => a * 10 + (c.toNat - '0'.toNat)) 0

/-- Hexadecimal digit test (`0-9a-fA-F`). -/
def isHexC (c : Char) : Bool :=
  c.isDigit || ('a' ≤ c && c ≤ 'f') || ('A' ≤ c && c ≤ 'F')

/-- Value of one hexadecimal digit. -/
def hexDigVal (c : Char) : Nat :=
  if c.isDigit then c.toNat - '0'.toNat
  else if 'a' ≤ c && c ≤ 'f' then c.toNat - 'a'.toNat + 10
  else c.toNat - 'A'.toNat + 10

/-- Hexadecimal value of a hex-digit string (`int(s, 16)`). -/
def hexVal (cs : List Char) : Nat :=
  cs.foldl (fun a c => a * 16 + hexDigVal c) 0

/-- Python `s.split(sep)` for a one-character separator: always returns at
least one (possibly empty) piece. -/
def splitOnC (sep : Char) : List Char → List (List Char)
  | [] => [[]]
  | c :: rest =>
    let r := splitOnC sep rest
    if c = sep then [] :: r
    else
      match r with
      | h :: t => (c :: h) :: t
      | [] => [[c]]

/-- Lowercase hexadecimal digit character. -/
def hexChar (n : Nat) : Char :=
  if n < 10 then Char.ofNat ('0'.toNat + n) else Char.ofNat ('a'.toNat + n - 10)

/-- Python `'%x' % n` for `n < 0x10000`: lowercase hex without leading zeros. -/
def hexRepr4 (n : Nat) : List Char :=
  let ds := [hexChar (n / 4096 % 16), hexChar (n / 256 % 16),
             hexChar (n / 16 % 16), hexChar (n % 16)]
  match ds.dropWhile (fun c => c = '0') with
  | [] => ['0']
  | l => l

/-- `_parse_octet`: an all-decimal string of value at most 255, with
leading zeros rejected beyond two characters. -/
def parseOctet (cs : List Char) : Option Nat :=
  if cs = [] then none
  else if cs.all Char.isDigit = true then
    let v := decVal cs
    if 255 < v then none
    else if cs.headD ' ' = '0' ∧ 2 < cs.length then none
    else some v
  else none

/-- `IPv4Address` string parsing: exactly four octets separated by dots. -/
def parseIPv4data (cs : List Char) : Option Nat :=
  match splitOnC '.' cs with
  | [a, b, c, d] =>
    match parseOctet a, parseOctet b, parseOctet c, parseOctet d with
    | some va, some vb, some vc, some vd =>
      some (((va * 256 + vb) * 256 + vc) * 256 + vd)
    | _, _, _, _ => none
  | _ => none

/-- `_parse_hextet`: one to four hexadecimal digits. -/
def parseHextet (cs : List Char) : Option Nat :=
  if cs = [] then none
  else if cs.all isHexC = true ∧ cs.length ≤ 4 then some (hexVal cs)
  else none

/-- Parse every hextet of a list, failing if any fails. -/
def parseHextets : List (List Char) → Option (List Nat)
  | [] => some []
  | p :: ps =>
    match parseHextet p, parseHextets ps with
    | some v, some vs => some (v :: vs)
    | _, _ => none

/-- Accumulate hextets into the high bits of a number. -/
def foldHextets (vs : List Nat) : Nat :=
  vs.foldl (fun a v => a * 65536 + v) 0

/-- `IPv6Address` string parsing, mirroring `_ip_int_from_string`:
split on `:`, convert a dotted IPv4 suffix to two hextets, locate at most
one interior `::` gap, check the endpoint rules, and assemble the 128-bit
value from the parts before and after the gap. -/
def parseIPv6data (cs : List Char) : Option Nat :=
  let parts0 := splitOnC ':' cs
  if parts0.length < 3 then none
  else
    let conv : Option (List (List Char)) :=
      if (parts0.getLastD []).any (fun c => c = '.') then
        match parseIPv4data (parts0.getLastD []) with
        | some v4 => some (parts0.dropLast ++ [hexRepr4 (v4 / 65536), hexRepr4 (v4 % 65536)])
        | none => none
      else some parts0
    match conv with
    | none => none
    | some parts =>
      let n := parts.length
      if 9 < n then none
      else
        match (List.range n).filter
            (fun i => decide (1 ≤ i ∧ i + 1 < n ∧ parts.getD i ['x'] = [])) with
        | [] =>
          if n = 8 then (parseHextets parts).map foldHextets else none
        | [i] =>
          if parts.headD ['x'] = ([] : List Char) ∧ i ≠ 1 then none
          else if parts.getLastD ['x'] = ([] : List Char) ∧ i + 2 ≠ n then none
          else
            let pHi := if parts.headD ['x'] = ([] : List Char) then 0 else i
            let pLo := if parts.getLastD ['x'] = ([] : List Char) then 0 else n - i - 1
            if 8 ≤ pHi + pLo then none
            else
              match parseHextets (parts.take pHi), parseHextets (parts.drop (n - pLo)) with
              | some hi, some lo =>
                some (foldHextets hi * 65536 ^ ((8 - pHi - pLo) + pLo) + foldHextets lo)
              | _, _ => none
        | _ => none

/-- A parsed IP address: `ipaddr.IPv4Address` or `ipaddr.IPv6Address`. -/
inductive IP
  | v4 (a : Nat)
  | v6 (a : Nat)
deriving DecidableEq

/-- `ipaddr.IPAddress(s)`: try IPv4 first, then IPv6; `none` models the
`ValueError` raised when neither succeeds. -/
def IPAddress? (s : String) : Option IP :=
  match parseIPv4data s.data with
  | some a => some (.v4 a)
  | none =>
    match parseIPv6data s.data with
    | some a => some (.v6 a)
    | none => none

/-- The prefix-length half of a network string. -/
def parsePrefixLen (cs : List Char) (maxLen : Nat) : Option Nat :=
  if cs = [] then none
  else if cs.all Char.isDigit = true then
    let v := decVal cs
    if v ≤ maxLen then some v else none
  else none

/-- `ipaddr.IPv4Network(s)`: base address and prefix length. -/
def parseV4Net (s : String) : Option (Nat × Nat) :=
  match splitOnC '/' s.data with
  | [a] => (parseIPv4data a).map (fun b => (b, 32))
  | [a, p] =>
    match parseIPv4data a, parsePrefixLen p 32 with
    | some b, some pl => some (b, pl)
    | _, _ => none
  | _ => none

/-- `ipaddr.IPv6Network(s)`: base address and prefix length. -/
def parseV6Net (s : String) : Option (Nat × Nat) :=
  match splitOnC '/' s.data with
  | [a] => (parseIPv6data a).map (fun b => (b, 128))
  | [a, p] =>
    match parseIPv6data a, parsePrefixLen p 128 with
    | some b, some pl => some (b, pl)
    | _, _ => none
  | _ => none

/-- The (always well-formed) constant IPv4 networks of the module. -/
def netOf4 (s : String) : Nat × Nat := (parseV4Net s).getD (0, 32)

/-- The (always well-formed) constant IPv6 networks of the module. -/
def netOf6 (s : String) : Nat × Nat := (parseV6Net s).getD (0, 128)

/-- `address in network` on `ipaddr` objects: between the masked network
address and the broadcast address. -/
def netContains (width : Nat) (n : Nat × Nat) (a : Nat) : Bool :=
  let host := width - n.2
  let network := n.1 / 2 ^ host * 2 ^ host
  decide (network ≤ a) && decide (a ≤ network + 2 ^ host - 1)

/-- `_IPV4_PRIVATE_NETWORKS` from `db.py`. -/
def ipv4PrivateNetworks : List (Nat × Nat) :=
  [ "0.0.0.0/8",
    "10.0.0.0/8",
    "127.0.0.0/8",
    "169.254.0.0/16",
    "172.16.0.0/12",
    "192.0.0.0/29",
    "192.0.0.170/31",
    "192.0.2.0/24",
    "192.168.0.0/16",
    "198.18.0.0/15",
    "198.51.100.0/24",
    "203.0.113.0/24",
    "240.0.0.0/4",
    "255.255.255.255/32" ].map netOf4

/-- `_IPV6_PRIVATE_NETWORKS` from `db.py`. -/
def ipv6PrivateNetworks : List (Nat × Nat) :=
  [ "::1/128",
    "::/128",
    "::ffff:0:0/96",
    "100::/64",
    "2001::/23",
    "2001:2::/48",
    "2001:db8::/32",
    "2001:10::/28",
    "fc00::/7",
    "fe80::/10" ].map netOf6

/-- `IPv4Address.is_private` in `ipaddr`. -/
def isPrivate4 (a : Nat) : Bool :=
  netContains 32 (netOf4 "10.0.0.0/8") a ||
  netContains 32 (netOf4 "172.16.0.0/12") a ||
  netContains 32 (netOf4 "192.168.0.0/16") a

/-- `IPv4Address.is_multicast` in `ipaddr`. -/
def isMulticast4 (a : Nat) : Bool := netContains 32 (netOf4 "224.0.0.0/4") a

/-- `IPv4Address.is_unspecified` in `ipaddr`. -/
def isUnspecified4 (a : Nat) : Bool := decide (a = 0)

/-- `IPv4Address.is_loopback` in `ipaddr`. -/
def isLoopback4 (a : Nat) : Bool := netContains 32 (netOf4 "127.0.0.0/8") a

/-- `IPv4Address.is_link_local` in `ipaddr`. -/
def isLinkLocal4 (a : Nat) : Bool := netContains 32 (netOf4 "169.254.0.0/16") a

/-- `IPv6Address.is_private` in `ipaddr`. -/
def isPrivate6 (a : Nat) : Bool := netContains 128 (netOf6 "fc00::/7") a

/-- `IPv6Address.is_multicast` in `ipaddr`. -/
def isMulticast6 (a : Nat) : Bool := netContains 128 (netOf6 "ff00::/8") a

/-- `IPv6Address.is_unspecified` in `ipaddr`. -/
def isUnspecified6 (a : Nat) : Bool := decide (a = 0)

/-- `IPv6Address.is_loopback` in `ipaddr`. -/
def isLoopback6 (a : Nat) : Bool := decide (a = 1)

/-- `IPv6Address.is_link_local` in `ipaddr`. -/
def isLinkLocal6 (a : Nat) : Bool := netContains 128 (netOf6 "fe80::/10") a

/-- `db.py` lines 54-74, `reserved(address)`: parse as IPv4 or IPv6
(`True` on failure), then test the standard flags, the module's constant
network lists, and (IPv4 only) the shared address space `100.64.0.0/10`. -/
def reserved (address : String) : Bool :=
  match IPAddress? address with
  | none => true
  | some (.v4 a) =>
    isPrivate4 a || isMulticast4 a || isUnspecified4 a || isLoopback4 a ||
    isLinkLocal4 a ||
    (ipv4PrivateNetworks.any (fun n => netContains 32 n a) ||
     netContains 32 (netOf4 "100.64.0.0/10") a)
  | some (.v6 a) =>
    isPrivate6 a || isMulticast6 a || isUnspecified6 a || isLoopback6 a ||
    isLinkLocal6 a ||
    ipv6PrivateNetworks.any (fun n => netContains 128 n a)

/-! ## ZoneResolver: `zone(georeader, zones, remoteip, edns)` -/

/-- A zone-configuration value: a zone-name string or a nested regional
dict (the untyped "string or dict" shape of the YAML config). -/
inductive ZVal
  | str (s : String)
  | dict (m : List (String × ZVal))

/-- The result of a successful GeoIP city lookup: `geo.country.iso_code`
and `geo.subdivisions.most_specific.iso_code`, each possibly `None`. -/
structure Geo where
  country : Option String
  region : Option String

/-- The Python exception classes that can cross the modelled code:
`geoip2.errors.AddressNotFoundError`, any other error raised by the GeoIP
collaborator, and `KeyError`/`TypeError`/`IndexError`/`ValueError`. -/
inductive PyErr
  | addressNotFound
  | otherError
  | keyError
  | typeError
  | indexError
  | valueError
deriving DecidableEq

/-- `edns.split('/')[0]`: the part before the first slash. -/
def stripNetmask (s : String) : String :=
  String.mk (s.data.takeWhile (fun c => !(c == '/')))

/-- `db.py` lines 116-136: geolocate an address and resolve the zone
through the country and region levels.  `city` is the external GeoIP
collaborator; only `AddressNotFoundError` is caught. -/
def zoneGeo (city : String → Except PyErr Geo) (zones : List (String × ZVal))
    (default_zone : ZVal) (address : String) : Except PyErr ZVal :=
  match city address with
  | .error e =>
    -- `except geoip2.errors.AddressNotFoundError`: any other class re-raises
    if e = PyErr.addressNotFound then .ok default_zone else .error e
  | .ok geo =>
    match (olookup zones geo.country).getD default_zone with
    | .dict m =>
      match olookup zones geo.country with
      | some (.dict m2) =>
        match dget m2 "default" with
        | some dz => .ok ((olookup m geo.region).getD dz)
        | none => .error .keyError
      | some (.str _) => .error .typeError
      | none => .error .keyError
    | .str s => .ok (.str s)

/-- `db.py` lines 78-136, `zone(georeader, zones, remoteip, edns)`:
strip the netmask from the EDNS hint, prefer it when not reserved, fall
back to the remote address, and fail closed to the default zone. -/
def zone (city : String → Except PyErr Geo) (zones : List (String × ZVal))
    (remoteip : String) (edns : String := "0.0.0.0/8") : Except PyErr ZVal :=
  match dget zones "default" with
  | none => .error .keyError
  | some default_zone =>
    if reserved (stripNetmask edns) = true then
      if reserved remoteip = true then .ok default_zone
      else zoneGeo city zones default_zone remoteip
    else zoneGeo city zones default_zone (stripNetmask edns)

/-! ## SiteResolver: `site(sites, qname, qzone, qclass, qtype)` -/

/-- A `content` entry: IP address string to integer weight. -/
abbrev WeightTable := List (String × Int)

/-- One record set: optional `ttl` and the per-zone `content` tables. -/
structure RecordSet where
  ttl : Option Int := none
  content : List (String × WeightTable)

/-- DNS type to record set, under one class. -/
abbrev TypeMap := List (String × RecordSet)

/-- DNS class to type map, under one name. -/
abbrev ClsMap := List (String × TypeMap)

/-- Fully-qualified (or wildcard) name to class map. -/
abbrev SiteMap := List (String × ClsMap)

/-- Python `s.find(c)`: index of the first occurrence, `-1` if absent. -/
def charIndex (c : Char) : List Char → Option Nat
  | [] => none
  | x :: xs => if x = c then some 0 else (charIndex c xs).map (· + 1)

/-- Python `s.find(c)` returning `-1` when the character is absent. -/
def pyFind (s : String) (c : Char) : Int :=
  match charIndex c s.data with
  | some i => (i : Int)
  | none => -1

/-- Python `s[i:]` with Python's negative-index semantics. -/
def pySliceFrom (s : String) (i : Int) : String :=
  let start : Nat := if i < 0 then ((s.data.length : Int) + i).toNat
                     else min i.toNat s.data.length
  String.mk (s.data.drop start)

/-- `'*' + qname[qname.find('.'):]` from `db.py` line 177. -/
def wildcardOf (qname : String) : String :=
  "*" ++ pySliceFrom qname (pyFind qname '.')

/-- `db.py` lines 174-182: literal name match, then wildcard match;
returns the matched name's class map. -/
def matchName (sites : SiteMap) (qname : String) : Option ClsMap :=
  match dget sites qname with
  | some v => some v
  | none => dget sites (wildcardOf qname)

/-- `mcontent[address]` for an address drawn from the table's own keys. -/
def wlookup (m : WeightTable) (k : String) : Int := (dget m k).getD 0

/-- The loop of `db.py` lines 210-214: walk the addresses, breaking at the
first whose cumulative weight reaches `rnd`; after a full pass the loop
variable holds the last address visited. -/
def wrrLoop (m : WeightTable) (rnd : Int) : List String → Int → String → String
  | [], _, addr => addr
  | k :: ks, upto, _ =>
    if rnd ≤ upto + wlookup m k then k else wrrLoop m rnd ks (upto + wlookup m k) k

/-- `sorted(...)` on strings (Python 2 lexicographic string order). -/
def sortStrings (l : List String) : List String :=
  List.insertionSort (fun a b : String => a ≤ b) l

/-- The keys of a weight table in the order `sorted(mcontent)` yields. -/
def sortedKeys (m : WeightTable) : List String := sortStrings (m.map Prod.fst)

/-- `sum(mcontent.values())`. -/
def totalWeight (m : WeightTable) : Int := (m.map Prod.snd).sum

/-- The weighted selection of `db.py` lines 204-214 as a function of the
draw: start from `mcontent.keys()[0]`, and when the table has more than
one entry run the loop over the sorted keys. -/
def wrrPick (m : WeightTable) (rnd : Int) : String :=
  wrrLoop m rnd (sortedKeys m) 0 ((m.map Prod.fst).headD "")

/-- `db.py` lines 204-214 with the random draw supplied by an oracle
`rng` consulted at call index `k`: `randint(1, total)` is modelled as
`1 + rng k % total` (a value in `[1, total]`), raising `ValueError` when
`total < 1` and `IndexError` on an empty table. -/
def selectAddr (rng : Nat → Int) (k : Nat) : WeightTable → Except PyErr String
  | [] => .error .indexError
  | p :: rest =>
    if 1 < (p :: rest).length then
      let total := totalWeight (p :: rest)
      if 1 ≤ total then
        .ok (wrrLoop (p :: rest) (1 + rng k % total) (sortedKeys (p :: rest)) 0 p.1)
      else .error .valueError
    else .ok p.1

/-- `mname['content'].get(qzone, mname['content']['default'])`: Python
evaluates the default argument `mname['content']['default']` EAGERLY,
before the `.get` call, so a content dict without a `default` key raises
`KeyError` even when the requested zone's own table is present. -/
def contentTable (r : RecordSet) (qzone : String) : Except PyErr WeightTable :=
  match dget r.content "default" with
  | none => .error .keyError
  | some dflt =>
    match dget r.content qzone with
    | some t => .ok t
    | none => .ok dflt

/-- The body of the `for qtype in qtypes` loop of `db.py` lines 199-216
for one resolved type `t` (the `k`-th iteration, for the rng oracle). -/
def siteStep (rng : Nat → Int) (k : Nat) (mcls : TypeMap) (qzone t : String) :
    Except PyErr (String × String × Int) :=
  match dget mcls t with
  | none => .error .keyError
  | some r =>
    match contentTable r qzone with
    | .error e => .error e
    | .ok tbl =>
      match selectAddr rng k tbl with
      | .error e => .error e
      | .ok addr => .ok (t, addr, r.ttl.getD 3600)

/-- Run `f` over a list with the iteration index, stopping at the first
error (the semantics of the Python loop appending to `sites`). -/
def mapExIdx {α β : Type} (f : Nat → α → Except PyErr β) :
    Nat → List α → Except PyErr (List β)
  | _, [] => .ok []
  | k, a :: l =>
    match f k a with
    | .error e => .error e
    | .ok b =>
      match mapExIdx f (k + 1) l with
      | .error e => .error e
      | .ok bs => .ok (b :: bs)

/-- `db.py` lines 138-218, `site(sites, qname, qzone, qclass, qtype)`:
name matching (literal then wildcard), class lookup, type expansion
(`ANY` means every configured type in sorted order), then per-type
weighted selection. -/
def site (rng : Nat → Int) (sites : SiteMap) (qname qzone : String)
    (qcls : String := "IN") (qtype : String := "ANY") :
    Except PyErr (List (String × String × Int)) :=
  match matchName sites qname with
  | none => .ok []
  | some cmap =>
    match dget cmap qcls with
    | none => .ok []
    | some mcls =>
      match (if qtype = "ANY" then some (sortStrings (mcls.map Prod.fst))
             else if (dget mcls qtype).isSome then some [qtype]
             else none : Option (List String)) with
      | none => .ok []
      | some qtypes => mapExIdx (fun k t => siteStep rng k mcls qzone t) 0 qtypes

/-! ## Specification-side definitions

These restate parts of the specification in its own words, for the
refinement-style claims; they are compared against the code-derived
definitions above. -/

/-- Modelled from the spec: "the first address in lexicographically
ascending string order whose cumulative weight sum reaches `r`"
(`none` when no address reaches it). -/
def cumFirst (w : String → Int) (r : Int) : Int → List String → Option String
  | _, [] => none
  | upto, k :: ks => if r ≤ upto + w k then some k else cumFirst w r (upto + w k) ks

/-- Modelled from the spec: membership of an IPv4 numeric address in the
listed reserved ranges, written with explicit numeric bounds: the
fourteen extra blocks, the shared address space `100.64.0.0/10`, and the
private / multicast / unspecified / loopback / link-local ranges. -/
def v4ReservedSpec (a : Nat) : Prop :=
  a ≤ 0x00FFFFFF ∨
  (0x0A000000 ≤ a ∧ a ≤ 0x0AFFFFFF) ∨
  (0x7F000000 ≤ a ∧ a ≤ 0x7FFFFFFF) ∨
  (0xA9FE0000 ≤ a ∧ a ≤ 0xA9FEFFFF) ∨
  (0xAC100000 ≤ a ∧ a ≤ 0xAC1FFFFF) ∨
  (0xC0000000 ≤ a ∧ a ≤ 0xC0000007) ∨
  (0xC00000AA ≤ a ∧ a ≤ 0xC00000AB) ∨
  (0xC0000200 ≤ a ∧ a ≤ 0xC00002FF) ∨
  (0xC0A80000 ≤ a ∧ a ≤ 0xC0A8FFFF) ∨
  (0xC6120000 ≤ a ∧ a ≤ 0xC613FFFF) ∨
  (0xC6336400 ≤ a ∧ a ≤ 0xC63364FF) ∨
  (0xCB007100 ≤ a ∧ a ≤ 0xCB0071FF) ∨
  (0xF0000000 ≤ a ∧ a ≤ 0xFFFFFFFF) ∨
  a = 0xFFFFFFFF ∨
  (0x64400000 ≤ a ∧ a ≤ 0x647FFFFF) ∨
  (0xE0000000 ≤ a ∧ a ≤ 0xEFFFFFFF) ∨
  a = 0

/-- Modelled from the spec: membership of an IPv6 numeric address in the
listed reserved ranges, written with explicit numeric bounds; includes
the multicast / unspecified / loopback / link-local / private ranges. -/
def v6ReservedSpec (a : Nat) : Prop :=
  a = 1 ∨
  a = 0 ∨
  (0xFFFF * 2 ^ 32 ≤ a ∧ a ≤ 0xFFFF * 2 ^ 32 + 2 ^ 32 - 1) ∨
  (0x100 * 2 ^ 112 ≤ a ∧ a ≤ 0x100 * 2 ^ 112 + 2 ^ 64 - 1) ∨
  (0x2001 * 2 ^ 112 ≤ a ∧ a ≤ 0x2001 * 2 ^ 112 + 2 ^ 105 - 1) ∨
  (0x20010002 * 2 ^ 96 ≤ a ∧ a ≤ 0x20010002 * 2 ^ 96 + 2 ^ 80 - 1) ∨
  (0x20010DB8 * 2 ^ 96 ≤ a ∧ a ≤ 0x20010DB8 * 2 ^ 96 + 2 ^ 96 - 1) ∨
  (0x20010010 * 2 ^ 96 ≤ a ∧ a ≤ 0x20010010 * 2 ^ 96 + 2 ^ 100 - 1) ∨
  (0xFC00 * 2 ^ 112 ≤ a ∧ a ≤ 0xFC00 * 2 ^ 112 + 2 ^ 121 - 1) ∨
  (0xFE80 * 2 ^ 112 ≤ a ∧ a ≤ 0xFE80 * 2 ^ 112 + 2 ^ 118 - 1) ∨
  (0xFF00 * 2 ^ 112 ≤ a ∧ a ≤ 0xFF00 * 2 ^ 112 + 2 ^ 120 - 1)

/-- A zone name reachable from the zone map: the root `default` entry, a
country-level value, or an entry (regional leaf or regional default) of a
nested regional dict. -/
def zoneReachable (zones : List (String × ZVal)) (z : ZVal) : Prop :=
  dget zones "default" = some z ∨
  (∃ c, (c, z) ∈ zones) ∨
  (∃ c m k, (c, ZVal.dict m) ∈ zones ∧ (k, z) ∈ m)

/-- Decidable invariant for one class map entry: every record set under
it has a usable content table for `qzone` (the zone's own table or the
`default` one) that is non-empty with positive weights. -/
def stepOk (qzone : String) (mcls : TypeMap) : Bool :=
  mcls.all (fun p =>
    match contentTable p.2 qzone with
    | .ok tbl => !tbl.isEmpty && tbl.all (fun q => decide (0 < q.2))
    | .error _ => false)

/-! ## Concrete sample configurations (used by witnesses) -/

/-- The zone configuration from the `zone` docstring example. -/
def zonesEx : List (String × ZVal) :=
  [("default", .str "eu"), ("FR", .str "eu"),
   ("US", .dict [("default", .str "us-east"), ("CA", .str "us-west")])]

/-- A GeoIP collaborator returning a fixed result for every address. -/
def cityConst (g : Geo) : String → Except PyErr Geo := fun _ => .ok g

/-- A GeoIP collaborator raising a fixed error class for every address. -/
def cityFail (e : PyErr) : String → Except PyErr Geo := fun _ => .error e

/-- The type map of the `site` docstring example, with an extra MX record
to exercise the ANY ordering. -/
def mclsEx : TypeMap :=
  [("MX", ⟨some 300, [("default", [("9.9.9.9", 1)])]⟩),
   ("A", ⟨none, [("default", [("1.1.1.1", 20), ("2.2.2.2", 80)]),
                 ("us", [("3.3.3.3", 100)])]⟩)]

/-- The site configuration from the `site` docstring example. -/
def sitesEx : SiteMap :=
  [("www.example.com", [("IN", mclsEx)]),
   ("*.example.com", [("IN", [("A", ⟨none, [("default", [("1.1.1.1", 100)])]⟩)])])]

/-! ## Lemmas about the dictionary model -/

theorem dget_mem {α : Type} : ∀ {l : List (String × α)} {k : String} {v : α},
    dget l k = some v → (k, v) ∈ l := by
  intro l
  induction l with
  | nil => intro k v h; simp [dget] at h
  | cons p t ih =>
    intro k v h
    rcases p with ⟨k0, v0⟩
    by_cases hk : k0 = k
    · subst hk
      simp [dget] at h
      subst h
      exact List.mem_cons_self _ _
    · simp [dget, hk] at h
      exact List.mem_cons_of_mem _ (ih h)

theorem mem_keys_dget {α : Type} : ∀ {l : List (String × α)} {k : String},
    k ∈ l.map Prod.fst → ∃ v, dget l k = some v := by
  intro l
  induction l with
  | nil => intro k h; simp at h
  | cons p t ih =>
    intro k h
    rcases p with ⟨k0, v0⟩
    by_cases hk : k0 = k
    · exact ⟨v0, by simp [dget, hk]⟩
    · simp only [List.map_cons, List.mem_cons] at h
      rcases h with h | h
      · exact absurd h.symm hk
      · simpa [dget, hk] using ih h

theorem olookup_mem {α : Type} {l : List (String × α)} {c : Option String} {v : α}
    (h : olookup l c = some v) : ∃ k, c = some k ∧ (k, v) ∈ l := by
  cases c with
  | none => simp [olookup] at h
  | some k => exact ⟨k, rfl, dget_mem h⟩

/-! ## Lemmas about sorting and weights -/

theorem sortStrings_perm (l : List String) : (sortStrings l).Perm l :=
  List.perm_insertionSort _ l

theorem sortStrings_sorted (l : List String) :
    (sortStrings l).Sorted (fun a b : String => a ≤ b) :=
  List.sorted_insertionSort _ l

theorem map_wlookup : ∀ {m : WeightTable}, (m.map Prod.fst).Nodup →
    (m.map Prod.fst).map (wlookup m) = m.map Prod.snd := by
  intro m
  induction m with
  | nil => intro _; rfl
  | cons p t ih =>
    intro hnd
    rcases p with ⟨k0, v0⟩
    simp only [List.map_cons, List.nodup_cons] at hnd ⊢
    have h1 : wlookup ((k0, v0) :: t) k0 = v0 := by simp [wlookup, dget]
    have htail : ∀ x ∈ t.map Prod.fst, wlookup ((k0, v0) :: t) x = wlookup t x := by
      intro x hx
      have hne : ¬ k0 = x := by
        intro he; exact hnd.1 (he ▸ hx)
      simp [wlookup, dget, hne]
    rw [h1, List.map_congr_left htail, ih hnd.2]

theorem mapw_sum_nonneg (w : String → Int) (t : List String)
    (pos : ∀ k ∈ t, 0 < w k) : 0 ≤ (t.map w).sum := by
  apply List.sum_nonneg
  intro x hx
  rcases List.mem_map.mp hx with ⟨y, hy, rfl⟩
  exact le_of_lt (pos y hy)

theorem totalWeight_pos {m : WeightTable} (hne : m ≠ [])
    (pos : ∀ p ∈ m, 0 < p.2) : 1 ≤ totalWeight m := by
  cases m with
  | nil => exact absurd rfl hne
  | cons p t =>
    have h1 : 0 < p.2 := pos p (List.mem_cons_self _ _)
    have h2 : 0 ≤ (t.map Prod.snd).sum := by
      apply List.sum_nonneg
      intro x hx
      rcases List.mem_map.mp hx with ⟨y, hy, rfl⟩
      exact le_of_lt (pos y (List.mem_cons_of_mem _ hy))
    simp only [totalWeight, List.map_cons, List.sum_cons]
    omega

/-! ## Lemmas about the weighted-selection loop -/

theorem wrrLoop_mem (m : WeightTable) (rnd : Int) :
    ∀ (ks : List String) (upto : Int) (prev : String),
      wrrLoop m rnd ks upto prev ∈ prev :: ks := by
  intro ks
  induction ks with
  | nil => intro upto prev; simp [wrrLoop]
  | cons k t ih =>
    intro upto prev
    simp only [wrrLoop]
    split
    · simp
    · have := ih (upto + wlookup m k) k
      rcases List.mem_cons.mp this with h | h
      · simp [h]
      · simp [List.mem_cons_of_mem, h]

theorem cumFirst_mem (w : String → Int) (r : Int) :
    ∀ (ks : List String) (upto : Int) (a : String),
      cumFirst w r upto ks = some a → a ∈ ks := by
  intro ks
  induction ks with
  | nil => intro upto a h; simp [cumFirst] at h
  | cons k t ih =>
    intro upto a h
    simp only [cumFirst] at h
    split at h
    · simp at h; simp [h]
    · exact List.mem_cons_of_mem _ (ih _ _ h)

theorem wrrLoop_eq_cumFirst (m : WeightTable) (rnd : Int) :
    ∀ (ks : List String) (upto : Int) (a : String),
      cumFirst (wlookup m) rnd upto ks = some a →
      ∀ prev, wrrLoop m rnd ks upto prev = a := by
  intro ks
  induction ks with
  | nil => intro upto a h; simp [cumFirst] at h
  | cons k t ih =>
    intro upto a h prev
    simp only [cumFirst] at h
    simp only [wrrLoop]
    split
    · next hle => rw [if_pos hle] at h; simpa using h
    · next hle => rw [if_neg hle] at h; exact ih _ _ h k

theorem cumFirst_isSome (w : String → Int) (r : Int) :
    ∀ (ks : List String) (upto : Int), (∀ k ∈ ks, 0 < w k) →
      upto < r → r ≤ upto + (ks.map w).sum →
      ∃ a, cumFirst w r upto ks = some a := by
  intro ks
  induction ks with
  | nil =>
    intro upto _ hlt hle
    simp only [List.map_nil, List.sum_nil, add_zero] at hle
    omega
  | cons k t ih =>
    intro upto pos hlt hle
    simp only [cumFirst]
    by_cases hk : r ≤ upto + w k
    · exact ⟨k, if_pos hk⟩
    · rw [if_neg hk]
      apply ih (upto + w k) (fun x hx => pos x (List.mem_cons_of_mem _ hx))
      · omega
      · simp only [List.map_cons, List.sum_cons] at hle
        omega

theorem cumFirst_count (w : String → Int) :
    ∀ (ks : List String), ks.Nodup → (∀ k ∈ ks, 0 < w k) →
      ∀ (upto : Int) (a : String), a ∈ ks →
      ((Finset.Icc (upto + 1) (upto + (ks.map w).sum)).filter
        (fun r => cumFirst w r upto ks = some a)).card = (w a).toNat := by
  intro ks
  induction ks with
  | nil => intro _ _ upto a ha; simp at ha
  | cons k t ih =>
    intro hnd pos upto a ha
    rw [List.nodup_cons] at hnd
    rcases List.mem_cons.mp ha with rfl | hat
    · -- counting the draws that pick the head
      have hcond : ∀ r : Int, cumFirst w r upto (a :: t) = some a ↔ r ≤ upto + w a := by
        intro r
        simp only [cumFirst]
        split
        · next hle => simp [hle]
        · next hle =>
          constructor
          · intro hc
            exact absurd (cumFirst_mem w r t _ _ hc) hnd.1
          · intro hc; exact absurd hc hle
      have hs : 0 ≤ (t.map w).sum :=
        mapw_sum_nonneg w t (fun x hx => pos x (List.mem_cons_of_mem _ hx))
      have hset : (Finset.Icc (upto + 1) (upto + ((a :: t).map w).sum)).filter
          (fun r => cumFirst w r upto (a :: t) = some a)
          = Finset.Icc (upto + 1) (upto + w a) := by
        ext r
        simp only [Finset.mem_filter, Finset.mem_Icc, hcond r, List.map_cons, List.sum_cons]
        constructor
        · rintro ⟨⟨h1, _⟩, h3⟩; exact ⟨h1, h3⟩
        · rintro ⟨h1, h2⟩; exact ⟨⟨h1, by omega⟩, h2⟩
      rw [hset, Int.card_Icc]
      omega
    · -- counting the draws that skip the head
      have hka : ¬ k = a := by
        intro he; exact hnd.1 (he ▸ hat)
      have hwk : 0 < w k := pos k (List.mem_cons_self _ _)
      have hcond : ∀ r : Int, cumFirst w r upto (k :: t) = some a ↔
          ¬ r ≤ upto + w k ∧ cumFirst w r (upto + w k) t = some a := by
        intro r
        simp only [cumFirst]
        split
        · next hle => simp [hle, hka]
        · next hle => simp [hle]
      have hset : (Finset.Icc (upto + 1) (upto + ((k :: t).map w).sum)).filter
          (fun r => cumFirst w r upto (k :: t) = some a)
          = (Finset.Icc (upto + w k + 1) (upto + w k + (t.map w).sum)).filter
              (fun r => cumFirst w r (upto + w k) t = some a) := by
        ext r
        simp only [Finset.mem_filter, Finset.mem_Icc, hcond r, List.map_cons, List.sum_cons]
        constructor
        · rintro ⟨⟨h1, h2⟩, h3, h4⟩
          refine ⟨⟨by omega, by omega⟩, h4⟩
        · rintro ⟨⟨h1, h2⟩, h4⟩
          refine ⟨⟨by omega, by omega⟩, by omega, h4⟩
      rw [hset]
      have := ih hnd.2 (fun x hx => pos x (List.mem_cons_of_mem _ hx)) (upto + w k) a hat
      simpa using this

/-! ## Lemmas about `selectAddr`, `siteStep` and the result loop -/

theorem selectAddr_mem {rng : Nat → Int} {k : Nat} {m : WeightTable} {a : String}
    (h : selectAddr rng k m = .ok a) : a ∈ m.map Prod.fst := by
  cases m with
  | nil => exact absurd h (by simp [selectAddr])
  | cons p rest =>
    simp only [selectAddr] at h
    have ha0 : p.1 ∈ (p :: rest).map Prod.fst := by simp
    split at h
    · split at h
      · have ha : a = wrrLoop (p :: rest)
            (1 + rng k % totalWeight (p :: rest)) (sortedKeys (p :: rest)) 0 p.1 := by
          simpa using h.symm
        rw [ha]
        have hwl := wrrLoop_mem (p :: rest)
          (1 + rng k % totalWeight (p :: rest)) (sortedKeys (p :: rest)) 0 p.1
        rcases List.mem_cons.mp hwl with hh | hh
        · rw [hh]; exact ha0
        · exact ((sortStrings_perm ((p :: rest).map Prod.fst)).mem_iff).mp hh
      · exact absurd h (by simp)
    · have ha : a = p.1 := by simpa using h.symm
      rw [ha]; exact ha0

theorem selectAddr_ok (rng : Nat → Int) (k : Nat) {m : WeightTable}
    (hne : m ≠ []) (pos : ∀ p ∈ m, 0 < p.2) :
    ∃ a, selectAddr rng k m = .ok a := by
  cases m with
  | nil => exact absurd rfl hne
  | cons p rest =>
    simp only [selectAddr]
    split
    · rw [if_pos (totalWeight_pos hne pos)]
      exact ⟨_, rfl⟩
    · exact ⟨p.1, rfl⟩

theorem siteStep_ok_shape {rng : Nat → Int} {k : Nat} {mcls : TypeMap}
    {qzone t : String} {y : String × String × Int}
    (h : siteStep rng k mcls qzone t = .ok y) :
    ∃ r tbl, dget mcls t = some r ∧ contentTable r qzone = .ok tbl ∧
      selectAddr rng k tbl = .ok y.2.1 ∧ y = (t, y.2.1, r.ttl.getD 3600) := by
  unfold siteStep at h
  split at h
  · exact Except.noConfusion h
  · next r hr =>
    split at h
    · exact Except.noConfusion h
    · next tbl htbl =>
      split at h
      · exact Except.noConfusion h
      · next addr haddr =>
        have hy : y = (t, addr, r.ttl.getD 3600) := by
          injection h with h2
          exact h2.symm
        refine ⟨r, tbl, hr, htbl, ?_, ?_⟩
        · rw [hy]; exact haddr
        · rw [hy]

theorem stepOk_spec {qzone : String} {mcls : TypeMap} (h : stepOk qzone mcls = true)
    {t : String} {r : RecordSet} (hr : dget mcls t = some r) :
    ∃ tbl, contentTable r qzone = .ok tbl ∧ tbl ≠ [] ∧ ∀ p ∈ tbl, 0 < p.2 := by
  have hmem : (t, r) ∈ mcls := dget_mem hr
  unfold stepOk at h
  have hall := (List.all_eq_true.mp h) _ hmem
  split at hall
  · next tbl htbl =>
    simp only [Bool.and_eq_true, Bool.not_eq_true', List.all_eq_true] at hall
    refine ⟨tbl, htbl, ?_, ?_⟩
    · intro he
      rw [he] at hall
      simp [List.isEmpty] at hall
    · intro p hp
      have hp2 := hall.2 p hp
      simpa using hp2
  · exact absurd hall (by simp)

theorem siteStep_ok_of {rng : Nat → Int} {mcls : TypeMap} {qzone t : String}
    (hok : stepOk qzone mcls = true) (ht : t ∈ mcls.map Prod.fst) (k : Nat) :
    ∃ y, siteStep rng k mcls qzone t = .ok y ∧ y.1 = t := by
  rcases mem_keys_dget ht with ⟨r, hr⟩
  rcases stepOk_spec hok hr with ⟨tbl, htbl, hne, hpos⟩
  rcases selectAddr_ok rng k hne hpos with ⟨a, ha⟩
  refine ⟨(t, a, r.ttl.getD 3600), ?_, rfl⟩
  simp only [siteStep, hr, htbl, ha]

theorem mapExIdx_ok_map {β : Type} (f : Nat → String → Except PyErr β) (g : β → String) :
    ∀ (ts : List String), (∀ t ∈ ts, ∀ k, ∃ y, f k t = .ok y ∧ g y = t) →
    ∀ k0, ∃ l, mapExIdx f k0 ts = .ok l ∧ l.map g = ts := by
  intro ts
  induction ts with
  | nil => intro _ k0; exact ⟨[], rfl, rfl⟩
  | cons t rest ih =>
    intro H k0
    rcases H t (List.mem_cons_self _ _) k0 with ⟨y, hy, hgy⟩
    rcases ih (fun x hx => H x (List.mem_cons_of_mem _ hx)) (k0 + 1) with ⟨l, hl, hgl⟩
    refine ⟨y :: l, ?_, by simp [hgy, hgl]⟩
    simp only [mapExIdx, hy, hl]

theorem mapExIdx_mem {β : Type} (f : Nat → String → Except PyErr β) :
    ∀ (ts : List String) (k0 : Nat) (l : List β), mapExIdx f k0 ts = .ok l →
    ∀ y ∈ l, ∃ k t, t ∈ ts ∧ f k t = .ok y := by
  intro ts
  induction ts with
  | nil =>
    intro k0 l h y hy
    simp only [mapExIdx] at h
    have : l = [] := by simpa using h.symm
    rw [this] at hy
    simp at hy
  | cons t rest ih =>
    intro k0 l h y hy
    simp only [mapExIdx] at h
    split at h
    · exact Except.noConfusion h
    · next b hft =>
      split at h
      · exact Except.noConfusion h
      · next bs hrest =>
        have hl : l = b :: bs := by
          injection h with h2
          exact h2.symm
        rw [hl] at hy
        rcases List.mem_cons.mp hy with rfl | hy
        · exact ⟨k0, t, List.mem_cons_self _ _, hft⟩
        · rcases ih (k0 + 1) bs hrest y hy with ⟨k, u, hu, hfu⟩
          exact ⟨k, u, List.mem_cons_of_mem _ hu, hfu⟩

/-! ## More helper lemmas -/

theorem wlookup_pos {m : WeightTable} (hpos : ∀ p ∈ m, 0 < p.2) {x : String}
    (hx : x ∈ m.map Prod.fst) : 0 < wlookup m x := by
  rcases mem_keys_dget hx with ⟨v, hv⟩
  have := hpos _ (dget_mem hv)
  simpa [wlookup, hv] using this

theorem sorted_wlookup_sum {m : WeightTable} (hnd : (m.map Prod.fst).Nodup) :
    ((sortedKeys m).map (wlookup m)).sum = totalWeight m := by
  have hperm : ((sortedKeys m).map (wlookup m)).Perm ((m.map Prod.fst).map (wlookup m)) :=
    (sortStrings_perm _).map _
  rw [hperm.sum_eq, map_wlookup hnd]
  rfl

theorem charIndex_eq_none {c : Char} : ∀ {cs : List Char}, c ∉ cs → charIndex c cs = none := by
  intro cs
  induction cs with
  | nil => intro _; rfl
  | cons x xs ih =>
    intro h
    have hx : ¬ x = c := by
      intro he; exact h (he ▸ List.mem_cons_self _ _)
    have hxs : c ∉ xs := fun hm => h (List.mem_cons_of_mem _ hm)
    simp [charIndex, hx, ih hxs]

theorem drop_length_sub_one {α : Type} (d : α) : ∀ (cs : List α), cs ≠ [] →
    cs.drop (cs.length - 1) = [cs.getLastD d] := by
  intro cs
  induction cs with
  | nil => intro h; exact absurd rfl h
  | cons a t ih =>
    intro _
    cases t with
    | nil => rfl
    | cons b t2 =>
      have hne : b :: t2 ≠ [] := by simp
      have hstep : (a :: b :: t2).drop ((a :: b :: t2).length - 1)
          = (b :: t2).drop ((b :: t2).length - 1) := by
        simp [List.drop]
      rw [hstep, ih hne]
      simp [List.getLastD_eq_getLast?, List.getLast?_cons_cons]

theorem zoneGeo_reachable {city : String → Except PyErr Geo}
    {zones : List (String × ZVal)} {default_zone : ZVal} {address : String} {z : ZVal}
    (hd : dget zones "default" = some default_zone)
    (h : zoneGeo city zones default_zone address = .ok z) : zoneReachable zones z := by
  unfold zoneGeo at h
  split at h
  · -- an error was raised: either caught (default zone) or re-raised
    split at h
    · injection h with h2
      exact Or.inl (h2 ▸ hd)
    · exact Except.noConfusion h
  · next geo hgeo =>
    split at h
    · next m hm =>
      split at h
      · next m2 hm2 =>
        split at h
        · next dz hdz =>
          injection h with h2
          have hmem2 : ∃ c, (c, ZVal.dict m2) ∈ zones := by
            rcases olookup_mem hm2 with ⟨c, _, hc⟩
            exact ⟨c, hc⟩
          rcases hmem2 with ⟨c, hc⟩
          have hmm : m = m2 := by
            rw [hm2] at hm
            simp only [Option.getD_some] at hm
            injection hm with hmm
            exact hmm.symm
          cases hreg : olookup m geo.region with
          | some v =>
            rw [hreg] at h2
            simp only [Option.getD_some] at h2
            rcases olookup_mem hreg with ⟨k, _, hk⟩
            refine Or.inr (Or.inr ⟨c, m2, k, hc, ?_⟩)
            rw [← hmm, ← h2]
            exact hk
          | none =>
            rw [hreg] at h2
            simp only [Option.getD_none] at h2
            exact Or.inr (Or.inr ⟨c, m2, "default", hc, h2 ▸ dget_mem hdz⟩)
        · exact Except.noConfusion h
      · exact Except.noConfusion h
      · exact Except.noConfusion h
    · next s hs =>
      injection h with h2
      cases hol : olookup zones geo.country with
      | none =>
        rw [hol] at hs
        simp only [Option.getD_none] at hs
        exact Or.inl (by rw [← h2, ← hs]; exact hd)
      | some v =>
        rw [hol] at hs
        simp only [Option.getD_some] at hs
        rcases olookup_mem hol with ⟨c, _, hc⟩
        exact Or.inr (Or.inl ⟨c, by rw [← h2, ← hs]; exact hc⟩)

/-! ## Evaluation of the constant network tables -/

theorem ipv4Nets_eval : ipv4PrivateNetworks =
    [(0, 8), (0x0A000000, 8), (0x7F000000, 8), (0xA9FE0000, 16), (0xAC100000, 12),
     (0xC0000000, 29), (0xC00000AA, 31), (0xC0000200, 24), (0xC0A80000, 16),
     (0xC6120000, 15), (0xC6336400, 24), (0xCB007100, 24), (0xF0000000, 4),
     (0xFFFFFFFF, 32)] := by decide

theorem ipv6Nets_eval : ipv6PrivateNetworks =
    [(1, 128), (0, 128), (0xFFFF * 2 ^ 32, 96), (0x100 * 2 ^ 112, 64),
     (0x2001 * 2 ^ 112, 23), (0x20010002 * 2 ^ 96, 48), (0x20010DB8 * 2 ^ 96, 32),
     (0x20010010 * 2 ^ 96, 28), (0xFC00 * 2 ^ 112, 7), (0xFE80 * 2 ^ 112, 10)] := by decide

theorem net100_64_eval : netOf4 "100.64.0.0/10" = (0x64400000, 10) := by decide

theorem net224_eval : netOf4 "224.0.0.0/4" = (0xE0000000, 4) := by decide

theorem net10_eval : netOf4 "10.0.0.0/8" = (0x0A000000, 8) := by decide

theorem net172_eval : netOf4 "172.16.0.0/12" = (0xAC100000, 12) := by decide

theorem net192_eval : netOf4 "192.168.0.0/16" = (0xC0A80000, 16) := by decide

theorem net127_eval : netOf4 "127.0.0.0/8" = (0x7F000000, 8) := by decide

theorem net169_eval : netOf4 "169.254.0.0/16" = (0xA9FE0000, 16) := by decide

theorem netfc00_eval : netOf6 "fc00::/7" = (0xFC00 * 2 ^ 112, 7) := by decide

theorem netff00_eval : netOf6 "ff00::/8" = (0xFF00 * 2 ^ 112, 8) := by decide

theorem netfe80_eval : netOf6 "fe80::/10" = (0xFE80 * 2 ^ 112, 10) := by decide

/-! ## The claims -/

/-- C1: after stripping any CIDR suffix from the EDNS subnet, a
non-reserved EDNS address is the one geolocated; otherwise a non-reserved
remote address is geolocated; and when both are reserved, `zone` returns
the root default zone immediately, independent of the GeoIP collaborator
(no lookup is performed). -/
theorem zone_effective_address (city : String → Except PyErr Geo)
    (zones : List (String × ZVal)) (remoteip edns : String) {d : ZVal}
    (hd : dget zones "default" = some d) :
    (reserved (stripNetmask edns) = false →
      zone city zones remoteip edns = zoneGeo city zones d (stripNetmask edns)) ∧
    (reserved (stripNetmask edns) = true → reserved remoteip = false →
      zone city zones remoteip edns = zoneGeo city zones d remoteip) ∧
    (reserved (stripNetmask edns) = true → reserved remoteip = true →
      zone city zones remoteip edns = .ok d ∧
      ∀ city2 : String → Except PyErr Geo,
        zone city2 zones remoteip edns = zone city zones remoteip edns) := by
  refine ⟨?_, ?_, ?_⟩
  · intro h
    simp only [zone, hd]
    simp [h]
  · intro h1 h2
    simp only [zone, hd]
    simp [h1, h2]
  · intro h1 h2
    constructor
    · simp only [zone, hd]
      simp [h1, h2]
    · intro city2
      simp only [zone, hd]
      simp [h1, h2]

/-- C1 witness at a concrete configuration. -/
theorem zone_effective_address_witness :
    (reserved (stripNetmask "1.2.3.4/24") = false →
      zone (cityConst ⟨some "FR", none⟩) zonesEx "8.8.8.8" "1.2.3.4/24"
        = zoneGeo (cityConst ⟨some "FR", none⟩) zonesEx (ZVal.str "eu")
            (stripNetmask "1.2.3.4/24")) ∧
    (reserved (stripNetmask "1.2.3.4/24") = true → reserved "8.8.8.8" = false →
      zone (cityConst ⟨some "FR", none⟩) zonesEx "8.8.8.8" "1.2.3.4/24"
        = zoneGeo (cityConst ⟨some "FR", none⟩) zonesEx (ZVal.str "eu") "8.8.8.8") ∧
    (reserved (stripNetmask "1.2.3.4/24") = true → reserved "8.8.8.8" = true →
      zone (cityConst ⟨some "FR", none⟩) zonesEx "8.8.8.8" "1.2.3.4/24"
        = .ok (ZVal.str "eu") ∧
      ∀ city2 : String → Except PyErr Geo,
        zone city2 zonesEx "8.8.8.8" "1.2.3.4/24"
          = zone (cityConst ⟨some "FR", none⟩) zonesEx "8.8.8.8" "1.2.3.4/24") :=
  zone_effective_address (cityConst ⟨some "FR", none⟩) zonesEx "8.8.8.8" "1.2.3.4/24" rfl

/-- C2 is false on the code: a GeoIP error whose class is not
AddressNotFoundError propagates out of `zone` as an error instead of
degrading to the default zone. -/
theorem zone_error_counterexample :
    zone (cityFail PyErr.otherError) zonesEx "8.8.8.8" "0.0.0.0/8"
      = .error PyErr.otherError := by
  rfl

/-- C2 (amended): only the AddressNotFound error class degrades to the
default zone; every other error class raised by the GeoIP collaborator
propagates out of `zone` unchanged. -/
theorem zone_error_amended (city : String → Except PyErr Geo)
    (zones : List (String × ZVal)) (remoteip edns : String) {d : ZVal}
    (hd : dget zones "default" = some d)
    (hedns : reserved (stripNetmask edns) = false) :
    (city (stripNetmask edns) = .error PyErr.addressNotFound →
      zone city zones remoteip edns = .ok d) ∧
    (∀ e, e ≠ PyErr.addressNotFound → city (stripNetmask edns) = .error e →
      zone city zones remoteip edns = .error e) := by
  have hz : zone city zones remoteip edns = zoneGeo city zones d (stripNetmask edns) := by
    simp only [zone, hd]
    simp [hedns]
  constructor
  · intro hc
    rw [hz]
    simp [zoneGeo, hc]
  · intro e he hc
    rw [hz]
    simp [zoneGeo, hc, he]

/-- C2 (amended) witness at a concrete configuration. -/
theorem zone_error_amended_witness :
    zone (cityFail PyErr.otherError) zonesEx "8.8.8.8" "1.2.3.4/24"
      = .error PyErr.otherError :=
  (zone_error_amended (cityFail PyErr.otherError) zonesEx "8.8.8.8" "1.2.3.4/24"
    rfl rfl).2 PyErr.otherError (by decide) rfl

/-- C3: with a valid zone map and a successful GeoIP result, `zone`
returns the root default zone when the country is absent, the country
leaf when it is a string, and for a regional dict the entry at the
subdivision code when present, else the regional dict's own default. -/
theorem zone_layered_defaults (city : String → Except PyErr Geo)
    (zones : List (String × ZVal)) (remoteip edns : String) (geo : Geo) {ds : String}
    (hd : dget zones "default" = some (ZVal.str ds))
    (hedns : reserved (stripNetmask edns) = false)
    (hcity : city (stripNetmask edns) = .ok geo) :
    (olookup zones geo.country = none →
       zone city zones remoteip edns = .ok (ZVal.str ds)) ∧
    (∀ z, olookup zones geo.country = some (ZVal.str z) →
       zone city zones remoteip edns = .ok (ZVal.str z)) ∧
    (∀ m dz, olookup zones geo.country = some (ZVal.dict m) → dget m "default" = some dz →
       (∀ v, olookup m geo.region = some v → zone city zones remoteip edns = .ok v) ∧
       (olookup m geo.region = none → zone city zones remoteip edns = .ok dz)) := by
  have hz : zone city zones remoteip edns
      = zoneGeo city zones (ZVal.str ds) (stripNetmask edns) := by
    simp only [zone, hd]
    simp [hedns]
  refine ⟨?_, ?_, ?_⟩
  · intro h
    rw [hz]
    simp [zoneGeo, hcity, h]
  · intro z h
    rw [hz]
    simp [zoneGeo, hcity, h]
  · intro m dz hm hdz
    constructor
    · intro v hv
      rw [hz]
      simp [zoneGeo, hcity, hm, hdz, hv]
    · intro hv
      rw [hz]
      simp [zoneGeo, hcity, hm, hdz, hv]

/-- C3 witness: the docstring example, for subdivision CA, subdivision NY
and an unconfigured country. -/
theorem zone_layered_defaults_witness :
    zone (cityConst ⟨some "US", some "CA"⟩) zonesEx "8.8.8.8" "9.9.9.9/32"
      = .ok (ZVal.str "us-west") ∧
    zone (cityConst ⟨some "US", some "NY"⟩) zonesEx "8.8.8.8" "9.9.9.9/32"
      = .ok (ZVal.str "us-east") ∧
    zone (cityConst ⟨some "JP", none⟩) zonesEx "8.8.8.8" "9.9.9.9/32"
      = .ok (ZVal.str "eu") :=
  ⟨((zone_layered_defaults (cityConst ⟨some "US", some "CA"⟩) zonesEx "8.8.8.8"
      "9.9.9.9/32" ⟨some "US", some "CA"⟩ rfl rfl rfl).2.2 _ _ rfl rfl).1 _ rfl,
   ((zone_layered_defaults (cityConst ⟨some "US", some "NY"⟩) zonesEx "8.8.8.8"
      "9.9.9.9/32" ⟨some "US", some "NY"⟩ rfl rfl rfl).2.2 _ _ rfl rfl).2 rfl,
   (zone_layered_defaults (cityConst ⟨some "JP", none⟩) zonesEx "8.8.8.8"
      "9.9.9.9/32" ⟨some "JP", none⟩ rfl rfl rfl).1 rfl⟩

/-- C5: under the configuration invariants, an ANY query returns exactly
one tuple per configured record type, in lexicographically sorted order
of the type key. -/
theorem site_any_sorted (rng : Nat → Int) (sites : SiteMap) (qname qzone qcls : String)
    (cmap : ClsMap) (mcls : TypeMap)
    (hmatch : matchName sites qname = some cmap)
    (hcls : dget cmap qcls = some mcls)
    (hnd : (mcls.map Prod.fst).Nodup)
    (hok : stepOk qzone mcls = true) :
    ∃ l, site rng sites qname qzone qcls "ANY" = .ok l ∧
      l.map (fun y => y.1) = sortStrings (mcls.map Prod.fst) ∧
      (l.map (fun y => y.1)).Sorted (fun a b : String => a ≤ b) ∧
      (l.map (fun y => y.1)).Nodup ∧
      (∀ t, t ∈ l.map (fun y => y.1) ↔ t ∈ mcls.map Prod.fst) := by
  have H : ∀ t ∈ sortStrings (mcls.map Prod.fst), ∀ k,
      ∃ y, siteStep rng k mcls qzone t = .ok y ∧ y.1 = t := by
    intro t ht k
    exact siteStep_ok_of hok ((sortStrings_perm _).subset ht) k
  rcases mapExIdx_ok_map (fun k t => siteStep rng k mcls qzone t) (fun y => y.1)
      (sortStrings (mcls.map Prod.fst)) H 0 with ⟨l, hl, hmap⟩
  refine ⟨l, ?_, hmap, ?_, ?_, ?_⟩
  · simp only [site, hmatch, hcls]
    simpa using hl
  · rw [hmap]
    exact sortStrings_sorted _
  · rw [hmap]
    exact ((sortStrings_perm _).nodup_iff).mpr hnd
  · intro t
    rw [hmap]
    exact (sortStrings_perm _).mem_iff

/-- C5 witness: the docstring example answers ANY with both types, A
before MX. -/
theorem site_any_sorted_witness :
    ∃ l, site (fun _ => 0) sitesEx "www.example.com" "us" "IN" "ANY" = .ok l ∧
      l.map (fun y => y.1) = sortStrings (mclsEx.map Prod.fst) ∧
      (l.map (fun y => y.1)).Sorted (fun a b : String => a ≤ b) ∧
      (l.map (fun y => y.1)).Nodup ∧
      (∀ t, t ∈ l.map (fun y => y.1) ↔ t ∈ mclsEx.map Prod.fst) :=
  site_any_sorted (fun _ => 0) sitesEx "www.example.com" "us" "IN"
    [("IN", mclsEx)] mclsEx rfl rfl (by decide) (by decide)

/-- C6: for a resolved record type whose content has the (invariant,
eagerly evaluated) `default` entry, the returned ttl is the record set's
`ttl` when present and 3600 otherwise, and the weight table used for
selection is the content entry for the requested zone when present and
the `default` entry otherwise; without a `default` entry the lookup
raises `KeyError` even when the zone's own table is present. -/
theorem site_ttl_and_table (rng : Nat → Int) (k : Nat) (mcls : TypeMap) (qzone t : String)
    (r : RecordSet) (hr : dget mcls t = some r) :
    (∀ y, siteStep rng k mcls qzone t = .ok y →
        y.2.2 = (match r.ttl with | some v => v | none => 3600)) ∧
    (∀ dfl, dget r.content "default" = some dfl →
      (∀ tbl, dget r.content qzone = some tbl →
          siteStep rng k mcls qzone t
            = (selectAddr rng k tbl).map (fun a => (t, a, r.ttl.getD 3600))) ∧
      (dget r.content qzone = none →
          siteStep rng k mcls qzone t
            = (selectAddr rng k dfl).map (fun a => (t, a, r.ttl.getD 3600)))) ∧
    (dget r.content "default" = none →
        siteStep rng k mcls qzone t = .error PyErr.keyError) := by
  refine ⟨?_, ?_, ?_⟩
  · intro y hy
    rcases siteStep_ok_shape hy with ⟨r2, tbl, hr2, _, _, hy2⟩
    have hrr : r2 = r := by
      rw [hr] at hr2
      injection hr2 with h2
      exact h2.symm
    rw [hy2, hrr]
    cases htl : r.ttl <;> simp [htl]
  · intro dfl hdef
    constructor
    · intro tbl htbl
      have hct : contentTable r qzone = .ok tbl := by simp [contentTable, hdef, htbl]
      simp only [siteStep, hr, hct]
      cases ha : selectAddr rng k tbl <;> simp [ha, Except.map]
    · intro hnone
      have hct : contentTable r qzone = .ok dfl := by simp [contentTable, hdef, hnone]
      simp only [siteStep, hr, hct]
      cases ha : selectAddr rng k dfl <;> simp [ha, Except.map]
  · intro hnone
    have hct : contentTable r qzone = .error PyErr.keyError := by
      simp [contentTable, hnone]
    simp only [siteStep, hr, hct]

/-- C6 witness: the zone's own table is chosen for `us`, the default
table otherwise, with the default ttl; and a record set without a
`default` content entry raises `KeyError` even though the `us` table is
present. -/
theorem site_ttl_and_table_witness :
    siteStep (fun _ => 0) 0 mclsEx "us" "A"
      = (selectAddr (fun _ => 0) 0 [("3.3.3.3", 100)]).map
          (fun a => ("A", a, (3600 : Int))) ∧
    siteStep (fun _ => 0) 0 mclsEx "eu" "A"
      = (selectAddr (fun _ => 0) 0 [("1.1.1.1", 20), ("2.2.2.2", 80)]).map
          (fun a => ("A", a, (3600 : Int))) ∧
    siteStep (fun _ => 0) 0 [("A", ⟨none, [("us", [("3.3.3.3", 100)])]⟩)] "us" "A"
      = .error PyErr.keyError :=
  ⟨((site_ttl_and_table (fun _ => 0) 0 mclsEx "us" "A"
      ⟨none, [("default", [("1.1.1.1", 20), ("2.2.2.2", 80)]),
              ("us", [("3.3.3.3", 100)])]⟩ rfl).2.1 _ rfl).1 _ rfl,
   ((site_ttl_and_table (fun _ => 0) 0 mclsEx "eu" "A"
      ⟨none, [("default", [("1.1.1.1", 20), ("2.2.2.2", 80)]),
              ("us", [("3.3.3.3", 100)])]⟩ rfl).2.1 _ rfl).2 rfl,
   (site_ttl_and_table (fun _ => 0) 0 [("A", ⟨none, [("us", [("3.3.3.3", 100)])]⟩)]
      "us" "A" ⟨none, [("us", [("3.3.3.3", 100)])]⟩ rfl).2.2 rfl⟩

/-- C7: when neither the literal name nor its wildcard is configured, or
the class has no entry, or the type is neither ANY nor configured, `site`
returns the empty sequence (no error). -/
theorem site_no_match (rng : Nat → Int) (sites : SiteMap) (qname qzone qcls qtype : String) :
    (dget sites qname = none → dget sites (wildcardOf qname) = none →
       site rng sites qname qzone qcls qtype = .ok []) ∧
    (∀ cmap, matchName sites qname = some cmap → dget cmap qcls = none →
       site rng sites qname qzone qcls qtype = .ok []) ∧
    (∀ cmap mcls, matchName sites qname = some cmap → dget cmap qcls = some mcls →
       qtype ≠ "ANY" → dget mcls qtype = none →
       site rng sites qname qzone qcls qtype = .ok []) := by
  refine ⟨?_, ?_, ?_⟩
  · intro h1 h2
    have hm : matchName sites qname = none := by simp [matchName, h1, h2]
    simp [site, hm]
  · intro cmap hm hc
    simp [site, hm, hc]
  · intro cmap mcls hm hc hne hq
    simp [site, hm, hc, hne, hq]

/-- C7 witness: an unknown name, an unknown class and an unknown type
each yield the empty sequence on the docstring example. -/
theorem site_no_match_witness :
    site (fun _ => 0) sitesEx "foo.nope.com" "us" "IN" "ANY" = .ok [] ∧
    site (fun _ => 0) sitesEx "www.example.com" "us" "CH" "ANY" = .ok [] ∧
    site (fun _ => 0) sitesEx "www.example.com" "us" "IN" "TXT" = .ok [] :=
  ⟨(site_no_match (fun _ => 0) sitesEx "foo.nope.com" "us" "IN" "ANY").1 rfl rfl,
   (site_no_match (fun _ => 0) sitesEx "www.example.com" "us" "CH" "ANY").2.1 _ rfl rfl,
   (site_no_match (fun _ => 0) sitesEx "www.example.com" "us" "IN" "TXT").2.2 _ _
     rfl rfl (by decide) rfl⟩

/-- C9: every address returned by `site` is a key of the weight table
selected for its record type, and every zone value returned by `zone` is
the root default, a country-level value, or an entry of a regional dict. -/
theorem roundtrip_invariant :
    (∀ (rng : Nat → Int) (sites : SiteMap) (qname qzone qcls qtype : String)
        (l : List (String × String × Int)),
       site rng sites qname qzone qcls qtype = .ok l →
       ∀ y ∈ l, ∃ cmap mcls r tbl,
         matchName sites qname = some cmap ∧ dget cmap qcls = some mcls ∧
         dget mcls y.1 = some r ∧ contentTable r qzone = .ok tbl ∧
         y.2.1 ∈ tbl.map Prod.fst) ∧
    (∀ (city : String → Except PyErr Geo) (zones : List (String × ZVal))
        (remoteip edns : String) (z : ZVal),
       zone city zones remoteip edns = .ok z → zoneReachable zones z) := by
  constructor
  · intro rng sites qname qzone qcls qtype l hsite y hy
    unfold site at hsite
    split at hsite
    · injection hsite with h2
      rw [← h2] at hy
      simp at hy
    · next cmap hcmap =>
      split at hsite
      · injection hsite with h2
        rw [← h2] at hy
        simp at hy
      · next mcls hmcls =>
        split at hsite
        · injection hsite with h2
          rw [← h2] at hy
          simp at hy
        · next qtypes hqt =>
          rcases mapExIdx_mem _ _ _ _ hsite y hy with ⟨k, t, ht, hstep⟩
          rcases siteStep_ok_shape hstep with ⟨r, tbl, hr, htbl, hsel, hy2⟩
          refine ⟨cmap, mcls, r, tbl, hcmap, hmcls, ?_, htbl, selectAddr_mem hsel⟩
          rw [hy2]
          exact hr
  · intro city zones remoteip edns z h
    unfold zone at h
    split at h
    · exact Except.noConfusion h
    · next d hd =>
      split at h
      · split at h
        · injection h with h2
          exact Or.inl (h2 ▸ hd)
        · exact zoneGeo_reachable hd h
      · exact zoneGeo_reachable hd h

/-- C9 witness: a concrete resolved address is a key of its selected
table, and a concrete resolved zone value is reachable. -/
theorem roundtrip_invariant_witness :
    (∃ cmap mcls r tbl,
       matchName sitesEx "www.example.com" = some cmap ∧ dget cmap "IN" = some mcls ∧
       dget mcls "A" = some r ∧ contentTable r "us" = .ok tbl ∧
       "3.3.3.3" ∈ tbl.map Prod.fst) ∧
    zoneReachable zonesEx (ZVal.str "us-west") :=
  ⟨roundtrip_invariant.1 (fun _ => 0) sitesEx "www.example.com" "us" "IN" "A"
     [("A", "3.3.3.3", 3600)] rfl ("A", "3.3.3.3", 3600) (by simp),
   roundtrip_invariant.2 (cityConst ⟨some "US", some "CA"⟩) zonesEx "8.8.8.8"
     "9.9.9.9/32" (ZVal.str "us-west") rfl⟩

/-- C10: for a dotless query name that is not a literal key, the wildcard
key tried by the name matching of `site` is `*` followed by the LAST
CHARACTER of the name (Python's `find` returns `-1`, so the slice keeps
only the final character), not `*` plus a dotted suffix. -/
theorem site_dotless_wildcard (sites : SiteMap) (qname : String)
    (h1 : qname.data ≠ []) (h2 : '.' ∉ qname.data)
    (h3 : dget sites qname = none) :
    wildcardOf qname = String.mk ['*', qname.data.getLastD ' '] ∧
    matchName sites qname = dget sites (String.mk ['*', qname.data.getLastD ' ']) := by
  have hfind : pyFind qname '.' = -1 := by
    unfold pyFind
    rw [charIndex_eq_none h2]
  have hslice : pySliceFrom qname (-1) = String.mk [qname.data.getLastD ' '] := by
    simp only [pySliceFrom]
    rw [if_pos (by norm_num : (-1 : Int) < 0)]
    have htn : ((qname.data.length : Int) + (-1)).toNat = qname.data.length - 1 := by
      omega
    rw [htn, drop_length_sub_one ' ' qname.data h1]
  have hw : wildcardOf qname = String.mk ['*', qname.data.getLastD ' '] := by
    unfold wildcardOf
    rw [hfind, hslice]
    rfl
  refine ⟨hw, ?_⟩
  simp only [matchName, h3, hw]

/-- C10 witness: `localhost` maps to the wildcard `*t`. -/
theorem site_dotless_wildcard_witness :
    wildcardOf "localhost" = String.mk ['*', "localhost".data.getLastD ' '] ∧
    matchName sitesEx "localhost"
      = dget sitesEx (String.mk ['*', "localhost".data.getLastD ' ']) :=
  site_dotless_wildcard sitesEx "localhost" (by decide) (by decide) rfl

/-- C4: weighted selection: a single-entry table selects its only address
with no random draw; with more than one entry and a draw `r` in
`[1, total]`, the selected address is the first in ascending string order
whose cumulative weight reaches `r`; exactly weight-many draws select
each address; and selection is a deterministic function of the draw. -/
theorem site_weighted_selection (m : WeightTable)
    (hnd : (m.map Prod.fst).Nodup) (hpos : ∀ p ∈ m, 0 < p.2) :
    (∀ (a : String) (w : Int) (rng : Nat → Int) (k : Nat),
        m = [(a, w)] → selectAddr rng k m = .ok a) ∧
    (∀ (rng : Nat → Int) (k : Nat), 1 < m.length →
        selectAddr rng k m = .ok (wrrPick m (1 + rng k % totalWeight m)) ∧
        1 ≤ 1 + rng k % totalWeight m ∧
        1 + rng k % totalWeight m ≤ totalWeight m) ∧
    (∀ r : Int, 1 < m.length → 1 ≤ r → r ≤ totalWeight m →
        ∃ a, cumFirst (wlookup m) r 0 (sortedKeys m) = some a ∧ wrrPick m r = a) ∧
    (∀ a, 1 < m.length → a ∈ m.map Prod.fst →
        ((Finset.Icc (1 : Int) (totalWeight m)).filter (fun r => wrrPick m r = a)).card
          = (wlookup m a).toNat) ∧
    ((sortedKeys m).Sorted (fun a b : String => a ≤ b) ∧
      (sortedKeys m).Perm (m.map Prod.fst)) := by
  have posS : ∀ x ∈ sortedKeys m, 0 < wlookup m x := fun x hx =>
    wlookup_pos hpos ((sortStrings_perm _).subset hx)
  refine ⟨?_, ?_, ?_, ?_, sortStrings_sorted _, sortStrings_perm _⟩
  · intro a w rng k hm
    subst hm
    simp [selectAddr]
  · intro rng k hlen
    have hne : m ≠ [] := by
      intro he
      rw [he] at hlen
      simp at hlen
    have htot := totalWeight_pos hne hpos
    have hnz : totalWeight m ≠ 0 := by omega
    have hmodpos := Int.emod_nonneg (rng k) hnz
    have hmodlt := Int.emod_lt_of_pos (rng k) (show 0 < totalWeight m by omega)
    refine ⟨?_, by omega, by omega⟩
    cases m with
    | nil => simp at hlen
    | cons p rest =>
      simp only [selectAddr]
      rw [if_pos hlen, if_pos htot]
      rfl
  · intro r hlen h1 h2
    rcases cumFirst_isSome (wlookup m) r (sortedKeys m) 0 posS (by omega)
      (by rw [zero_add, sorted_wlookup_sum hnd]; exact h2) with ⟨a, ha⟩
    exact ⟨a, ha, wrrLoop_eq_cumFirst m r (sortedKeys m) 0 a ha _⟩
  · intro a hlen ha
    have hnd2 : (sortedKeys m).Nodup := ((sortStrings_perm _).nodup_iff).mpr hnd
    have ha2 : a ∈ sortedKeys m := ((sortStrings_perm _).mem_iff).mpr ha
    have hcount := cumFirst_count (wlookup m) (sortedKeys m) hnd2 posS 0 a ha2
    have hiff : ∀ r ∈ Finset.Icc (1 : Int) (totalWeight m),
        (wrrPick m r = a ↔ cumFirst (wlookup m) r 0 (sortedKeys m) = some a) := by
      intro r hr
      rw [Finset.mem_Icc] at hr
      constructor
      · intro hpick
        rcases cumFirst_isSome (wlookup m) r (sortedKeys m) 0 posS (by omega)
          (by rw [zero_add, sorted_wlookup_sum hnd]; exact hr.2) with ⟨b, hb⟩
        have hba : wrrPick m r = b :=
          wrrLoop_eq_cumFirst m r (sortedKeys m) 0 b hb _
        rw [← show b = a from by rw [← hpick, hba]]
        exact hb
      · intro hc
        exact wrrLoop_eq_cumFirst m r (sortedKeys m) 0 a hc _
    rw [Finset.filter_congr hiff]
    have h01 : (0 : Int) + 1 = 1 := by norm_num
    have hS : (0 : Int) + ((sortedKeys m).map (wlookup m)).sum = totalWeight m := by
      rw [zero_add, sorted_wlookup_sum hnd]
    rw [h01, hS] at hcount
    exact hcount

/-- C4 witness: the docstring table `{1.1.1.1: 20, 2.2.2.2: 80}` gives
`2.2.2.2` exactly 80 of the 100 draws, and a singleton table always
returns its only entry. -/
theorem site_weighted_selection_witness :
    selectAddr (fun _ => 0) 0 [("9.9.9.9", (1 : Int))] = .ok "9.9.9.9" ∧
    ((Finset.Icc (1 : Int) (totalWeight [("1.1.1.1", 20), ("2.2.2.2", 80)])).filter
      (fun r => wrrPick [("1.1.1.1", 20), ("2.2.2.2", 80)] r = "2.2.2.2")).card
      = (wlookup [("1.1.1.1", 20), ("2.2.2.2", 80)] "2.2.2.2").toNat :=
  ⟨(site_weighted_selection [("9.9.9.9", 1)] (by decide) (by decide)).1
     "9.9.9.9" 1 (fun _ => 0) 0 rfl,
   (site_weighted_selection [("1.1.1.1", 20), ("2.2.2.2", 80)] (by decide)
     (by decide)).2.2.2.1 "2.2.2.2" (by decide) (by decide)⟩

/-- C8: `reserved` is true on every parse failure and on every address in
the listed reserved ranges (including `100.64.0.0/10` and the private,
multicast, unspecified, loopback and link-local ranges), and false on the
public addresses `8.8.8.8` and `2001:4860:4860::8888`. -/
theorem reserved_classification :
    (∀ s : String, IPAddress? s = none → reserved s = true) ∧
    (∀ (s : String) (a : Nat), IPAddress? s = some (IP.v4 a) →
       v4ReservedSpec a → reserved s = true) ∧
    (∀ (s : String) (a : Nat), IPAddress? s = some (IP.v6 a) →
       v6ReservedSpec a → reserved s = true) ∧
    reserved "8.8.8.8" = false ∧
    reserved "2001:4860:4860::8888" = false := by
  refine ⟨?_, ?_, ?_, by decide, by decide⟩
  · intro s h
    simp [reserved, h]
  · intro s a h hspec
    simp only [reserved, h]
    simp only [isPrivate4, isMulticast4, isUnspecified4, isLoopback4, isLinkLocal4,
      ipv4Nets_eval, net100_64_eval, net224_eval, net10_eval, net172_eval, net192_eval,
      net127_eval, net169_eval, List.any_cons, List.any_nil, netContains,
      Bool.or_eq_true, Bool.and_eq_true, decide_eq_true_eq, Bool.or_false]
    simp only [v4ReservedSpec] at hspec
    norm_num
    omega
  · intro s a h hspec
    simp only [reserved, h]
    simp only [isPrivate6, isMulticast6, isUnspecified6, isLoopback6, isLinkLocal6,
      ipv6Nets_eval, netfc00_eval, netff00_eval, netfe80_eval,
      List.any_cons, List.any_nil, netContains,
      Bool.or_eq_true, Bool.and_eq_true, decide_eq_true_eq, Bool.or_false]
    simp only [v6ReservedSpec] at hspec
    norm_num
    omega

/-- C8 witness: a malformed string, a shared-address-space IPv4 address
and a documentation-range IPv6 address are all reserved. -/
theorem reserved_classification_witness :
    reserved "not-an-ip" = true ∧
    reserved "100.64.1.1" = true ∧
    reserved "2001:db8::5" = true :=
  ⟨reserved_classification.1 "not-an-ip" rfl,
   reserved_classification.2.1 "100.64.1.1" 0x64400101 (by decide)
     (by unfold v4ReservedSpec; decide),
   reserved_classification.2.2.1 "2001:db8::5" (0x20010DB8 * 2 ^ 96 + 5) (by decide)
     (by unfold v6ReservedSpec; decide)⟩

end Pgwrr
